import Mathlib

/-!
# Verification of the nodriver price/SKU scraper (src/app.py)

Shallow embedding of the extraction engine and session orchestrator of
`app.py` (class `PriceScraper`), together with proofs settling the frozen
claims about it.

Modelling conventions:
* Python strings are Lean `String`/`List Char`; `float` prices are `ℚ`
  (every numeric literal the code parses is a short decimal, so rational
  arithmetic agrees with the float comparisons the code performs).
* `re.findall(pat, text)` is used by the code only through `matches[0]`,
  the leftmost match; it is embedded as a leftmost-match scanner.
* Python `\s` / `str.strip` whitespace is modelled by `Char.isWhitespace`
  (the ASCII fragment; no claim depends on exotic whitespace).
* `re.IGNORECASE` is modelled by `Char.toLower` comparison (ASCII folding).
-/

/-! ## Text normalizer: `re.sub(r'(was|orig|originally|save|you save|msrp)', '', text, flags=re.IGNORECASE)` -/

/-- The alternation of noise tokens, in the order they appear in the regex
(`was|orig|originally|save|you save|msrp`): a Python regex alternation tries
branches left to right, so at any position the earliest listed token that
matches is the one removed. -/
def noiseTokens : List (List Char) :=
  ["was", "orig", "originally", "save", "you save", "msrp"].map String.data

/-- Case-insensitive literal-token match at the head of the input: returns
the remainder after the token when every token char matches (tokens are
lowercase, input chars are lowercased before comparison). -/
def matchTok : List Char → List Char → Option (List Char)
  | [], l => some l
  | _ :: _, [] => none
  | t :: ts, c :: cs => if c.toLower == t then matchTok ts cs else none

/-- First token of the alternation matching at the head of the input,
returning the remainder after the match. -/
def findTok : List (List Char) → List Char → Option (List Char)
  | [], _ => none
  | t :: ts, l =>
    match matchTok t l with
    | some r => some r
    | none => findTok ts l

/-- Does some noise token match at the current position?  On success,
returns the rest of the input after the matched token. -/
def matchNoiseAt (l : List Char) : Option (List Char) :=
  findTok noiseTokens l

/-- Fuel-indexed left-to-right scan of `re.sub(..., '', text)`: at each
position remove the earliest-alternative noise token matching there and
continue after it (non-overlapping), otherwise keep the character.  Fuel
`≥ l.length` is always sufficient since every step consumes a character. -/
def removeNoiseF : Nat → List Char → List Char
  | 0, l => l
  | _ + 1, [] => []
  | fuel + 1, c :: cs =>
    match matchNoiseAt (c :: cs) with
    | some rest => removeNoiseF fuel rest
    | none => c :: removeNoiseF fuel cs

/-- The noise-token removal performed on line 130 of `app.py`. -/
def removeNoise (l : List Char) : List Char :=
  removeNoiseF l.length l

/-- String-level normalizer (the Text Normalizer component of the spec). -/
def normalizeText (s : String) : String :=
  ⟨removeNoise s.data⟩

/-- Does any noise token match at some position of the input? -/
def hasNoise : List Char → Bool
  | [] => false
  | c :: cs => (matchNoiseAt (c :: cs)).isSome || hasNoise cs

/-! ## Price patterns

The code tries, in order:
1. `\$(\d{1,3}(?:,\d{3})*\.?\d{0,2})`
2. `(\d{1,3}(?:,\d{3})*\.?\d{0,2})\s*USD`
3. `(\d{1,3}(?:,\d{3})*\.?\d{0,2})`
and of the first pattern with any match uses only `matches[0]`.
-/

/-- Greedily take up to `n` characters satisfying `p`. -/
def takeUpTo (p : Char → Bool) : Nat → List Char → List Char × List Char
  | 0, l => ([], l)
  | _ + 1, [] => ([], [])
  | n + 1, c :: cs =>
    if p c then
      let (t, r) := takeUpTo p n cs
      (c :: t, r)
    else ([], c :: cs)

/-- Take exactly `n` characters satisfying `p`, or fail. -/
def takeExact (p : Char → Bool) : Nat → List Char → Option (List Char × List Char)
  | 0, l => some ([], l)
  | _ + 1, [] => none
  | n + 1, c :: cs =>
    if p c then (takeExact p n cs).map (fun tr => (c :: tr.1, tr.2))
    else none

/-- Greedy `(?:,\d{3})*`: consume as many `,ddd` groups as possible. -/
def commaRun : List Char → List Char × List Char
  | ',' :: a :: b :: c :: rest =>
    if a.isDigit && b.isDigit && c.isDigit then
      let (g, r) := commaRun rest
      (',' :: a :: b :: c :: g, r)
    else ([], ',' :: a :: b :: c :: rest)
  | l => ([], l)

/-- All ways `(?:,\d{3})*` can split the input, most repetitions first
(the order a backtracking regex engine explores them). -/
def commaSplits : List Char → List (List Char × List Char)
  | ',' :: a :: b :: c :: rest =>
    if a.isDigit && b.isDigit && c.isDigit then
      ((commaSplits rest).map (fun gr => (',' :: a :: b :: c :: gr.1, gr.2)))
        ++ [([], ',' :: a :: b :: c :: rest)]
    else [([], ',' :: a :: b :: c :: rest)]
  | l => [([], l)]

/-- Greedy match of the numeric core `\d{1,3}(?:,\d{3})*\.?\d{0,2}` with no
continuation (patterns 1 and 3 end with the group, so the greedy choice is
final): returns the matched group and the remainder, or fails when no digit
starts here. -/
def coreAt (l : List Char) : Option (List Char × List Char) :=
  let (d1, r1) := takeUpTo Char.isDigit 3 l
  if d1.isEmpty then none
  else
    let (cg, r2) := commaRun r1
    let (dot, r3) :=
      match r2 with
      | '.' :: r => (['.'], r)
      | _ => (([] : List Char), r2)
    let (d2, r4) := takeUpTo Char.isDigit 2 r3
    some (d1 ++ cg ++ dot ++ d2, r4)

/-- Match of pattern 1, `\$(core)`, at the current position. -/
def matchP1At : List Char → Option (List Char)
  | [] => none
  | c :: rest => if c = '$' then (coreAt rest).map (·.1) else none

/-- Match of pattern 3, `(core)`, at the current position. -/
def matchP3At (l : List Char) : Option (List Char) :=
  (coreAt l).map (·.1)

/-- Matches `\s*` followed by the literal `USD` (case-sensitive: the price patterns
carry no IGNORECASE flag). -/
def usdAfter (l : List Char) : Bool :=
  match l.dropWhile Char.isWhitespace with
  | 'U' :: 'S' :: 'D' :: _ => true
  | _ => false

/-- The two ways `\.?` can proceed, greedy choice first. -/
def dotSplits : List Char → List (List Char × List Char)
  | [] => [([], [])]
  | c :: r => if c = '.' then [(['.'], r), ([], c :: r)] else [([], c :: r)]

/-- The candidate (group, remainder) splits of `core` at the current
position, in backtracking order: `\d{1,3}` longest first, then comma
groups most first, then `\.?` present first, then `\d{0,2}` longest
first, with later quantifiers varying fastest. -/
def p2Candidates (l : List Char) : List (List Char × List Char) :=
  ([3, 2, 1].filterMap (fun n => takeExact Char.isDigit n l)).flatMap (fun d1r =>
    (commaSplits d1r.2).flatMap (fun cgr =>
      (dotSplits cgr.2).flatMap (fun dtr =>
        ([2, 1, 0].filterMap (fun n => takeExact Char.isDigit n dtr.2)).map (fun d2r =>
          (d1r.1 ++ cgr.1 ++ dtr.1 ++ d2r.1, d2r.2)))))

/-- Match of pattern 2, `(core)\s*USD`, at the current position: the first
candidate core split (in backtracking order) whose remainder passes
`\s*USD` wins. -/
def matchP2At (l : List Char) : Option (List Char) :=
  ((p2Candidates l).find? (fun gr => usdAfter gr.2)).map (·.1)

/-- Leftmost match of a pattern: `re.findall` scans positions left to
right, and the code consumes only `matches[0]`, the leftmost match. -/
def firstMatchWith (mAt : List Char → Option (List Char)) : List Char → Option (List Char)
  | [] => none
  | c :: cs =>
    match mAt (c :: cs) with
    | some g => some g
    | none => firstMatchWith mAt cs

/-! ## Numeric parsing: `float(matches[0].replace(',', ''))` -/

/-- Value of a digit string, most significant first. -/
def digitsToNat (l : List Char) : Nat :=
  l.foldl (fun a c => 10 * a + (c.toNat - 48)) 0

/-- Python `float` restricted to the shapes that can reach it here:
`digits`, `digits.`, `digits.digits`, `.digits` (after comma stripping the
regex group is of this form).  Returns `none` where Python raises
`ValueError` (no digits at all, stray characters). -/
def pyFloat (l : List Char) : Option ℚ :=
  let ip := l.takeWhile (fun c => c != '.')
  let rest := l.dropWhile (fun c => c != '.')
  match rest with
  | [] => if ip ≠ [] ∧ ip.all Char.isDigit then some (mkRat (digitsToNat ip) 1) else none
  | c :: fp =>
    if c = '.' ∧ (ip ≠ [] ∨ fp ≠ []) ∧ ip.all Char.isDigit ∧ fp.all Char.isDigit then
      some (mkRat (digitsToNat (ip ++ fp)) (10 ^ fp.length))
    else none

/-- Strip thousands separators and parse, then range-validate: embeds the
body of the `if matches:` block (`float` on the comma-stripped first match,
accepted only within `0.01 <= price <= 10000`). -/
def validateGroup (g : List Char) : Option ℚ :=
  match pyFloat (g.filter (fun c => c != ',')) with
  | none => none
  | some p => if mkRat 1 100 ≤ p ∧ p ≤ 10000 then some p else none

/-- The pattern loop of `extract_price_from_text` (lines 139-151): for each
pattern in order, if it has a match, parse and range-check the first match;
an accepted value returns immediately, while a `ValueError` or an
out-of-range value lets the loop continue with the NEXT pattern (the `if`
block simply falls off and the `for` advances). -/
def tryPatterns : List (List Char → Option (List Char)) → List Char → Option ℚ
  | [], _ => none
  | fm :: rest, t =>
    match fm t with
    | none => tryPatterns rest t
    | some g =>
      match pyFloat (g.filter (fun c => c != ',')) with
      | none => tryPatterns rest t
      | some p => if mkRat 1 100 ≤ p ∧ p ≤ 10000 then some p else tryPatterns rest t

/-- The three price patterns of lines 133-137, in source order. -/
def pricePatterns : List (List Char → Option (List Char)) :=
  [firstMatchWith matchP1At, firstMatchWith matchP2At, firstMatchWith matchP3At]

/-- Embeds `PriceScraper.extract_price_from_text` (lines 124-151): empty input is
rejected, noise tokens are removed, then the pattern loop runs. -/
def extract_price_from_text (text : String) : Option ℚ :=
  if text = "" then none
  else tryPatterns pricePatterns (removeNoise text.data)

/-- First `some` of a list of options (used by the spec-side restatements
of the pattern-loop policy). -/
def firstSomeOf {α : Type} : List (Option α) → Option α
  | [] => none
  | o :: os => match o with | some v => some v | none => firstSomeOf os

/-- The claim's reading of the pattern loop (C2 as stated): the FIRST
pattern producing any match is final — its first match is validated and an
out-of-range value yields overall absence, with no fallthrough to later
patterns. -/
def extractClaimedSpec (text : String) : Option ℚ :=
  if text = "" then none
  else
    let t := removeNoise text.data
    match firstSomeOf (pricePatterns.map (fun fm => fm t)) with
    | none => none
    | some g => validateGroup g

/-- The amended reading: each pattern in order contributes only its first
match, validated; a rejected (out-of-range or unparsable) first match makes
the search fall through to the NEXT pattern, never to later matches of the
same pattern. -/
def extractAmendedSpec (text : String) : Option ℚ :=
  if text = "" then none
  else
    let t := removeNoise text.data
    firstSomeOf (pricePatterns.map (fun fm => (fm t).bind validateGroup))

/-! ## SKU classifier: `PriceScraper.looks_like_sku` (lines 153-172) -/

/-- Python `str.strip()`: drop whitespace from both ends. -/
def stripCore (l : List Char) : List Char :=
  ((l.dropWhile Char.isWhitespace).reverse.dropWhile Char.isWhitespace).reverse

/-- String-level `strip()`. -/
def pyStrip (s : String) : String :=
  ⟨stripCore s.data⟩

/-- The four anchored SKU shape rules (lines 161-166), checked with
IGNORECASE against the trimmed text.  Each regex is anchored `^...$` and
its character classes are pairwise disjoint at the boundaries, so greedy
scanning is exact:
1. `^\d{6,}$`, 2. `^[A-Z0-9]{3,}$` (with IGNORECASE: any ASCII
alphanumeric), 3. `^\d{3,}-[A-Z0-9]+$`, 4. `^[A-Z]{2,}\d+$`. -/
def skuShape (t : List Char) : Bool :=
  (6 ≤ t.length && t.all Char.isDigit)
  || (3 ≤ t.length && t.all Char.isAlphanum)
  || (let d := t.takeWhile Char.isDigit
      let r := t.drop d.length
      3 ≤ d.length &&
        match r with
        | '-' :: a => !a.isEmpty && a.all Char.isAlphanum
        | _ => false)
  || (let a := t.takeWhile Char.isAlpha
      let r := t.drop a.length
      2 ≤ a.length && !r.isEmpty && r.all Char.isDigit)

/-- Embeds `PriceScraper.looks_like_sku`: falsy or short-after-trim input is
rejected, then the trimmed text is matched against the shape rules. -/
def looks_like_sku (text : String) : Bool :=
  if text = "" || (pyStrip text).length < 3 then false
  else skuShape (pyStrip text).data

/-! ## Session orchestrator: `PriceScraper.scrape_price_and_sku` (lines 42-122) -/

/-- The result record assembled by the orchestrator.  The failure branch
carries `error`; the success branch omits it (`none`). -/
structure ScrapeResult where
  success : Bool
  price : Option ℚ
  sku : Option String
  source : String
  confidence : ℚ
  error : Option String

/-- The rendered page as the orchestrator sees it: per selector,
`page.select_all` either raises (`Except.error`) or yields elements whose
`get_text()` each either raises or yields a string. -/
structure Page where
  query : String → Except String (List (Except String String))

/-- One scrape invocation's environment: where (if anywhere) the pipeline
raises before extraction, the rendered page otherwise, and the outcome of
`browser.stop()` in the `finally` block (`some msg` = stop raised `msg`,
swallowed by the code). -/
inductive ScrapeEnv where
  | launchFail (msg : String)
  | navFail (msg : String) (stopErr : Option String)
  | settleFail (msg : String) (stopErr : Option String)
  | run (page : Page) (stopErr : Option String)

/-- The `except` branch of lines 107-116. -/
def failResult (url msg : String) : ScrapeResult :=
  { success := false, price := none, sku := none, source := url,
    confidence := 0, error := some msg }

/-- The list `self.price_selectors` (lines 17-28). -/
def price_selectors : List String :=
  ["[data-testid=\"price\"]", ".price", ".current-price", ".sale-price",
   ".product-price", "[class*=\"price\"]", "[id*=\"price\"]",
   ".price-current", ".price-now", "[data-price]"]

/-- The list `self.sku_selectors` (lines 30-40). -/
def sku_selectors : List String :=
  ["[data-testid=\"sku\"]", ".sku", ".item-number", ".product-sku",
   ".model-number", "[class*=\"sku\"]", "[id*=\"sku\"]", "[class*=\"item\"]",
   ".internet-number"]

/-- Python truthiness of the extracted price (`if extracted_price:`):
`None` and `0.0` are falsy. -/
def pyTruthy : Option ℚ → Bool
  | none => false
  | some q => q != 0

/-- Per-element test in the price loop (lines 70-76): skip falsy text,
extract, accept truthy extracted prices. -/
def priceTest (t : String) : Option ℚ :=
  if t = "" then none
  else
    match extract_price_from_text t with
    | none => none
    | some p => if p == 0 then none else some p

/-- Per-element test in the SKU loop (lines 88-92): accept when the text is
truthy and classifier-positive; the stored value is the trimmed text. -/
def skuTest (t : String) : Option String :=
  if t = "" then none
  else if looks_like_sku t then some (pyStrip t) else none

/-- The inner element loop: elements in document order, first accepted
value breaks; an element whose `get_text()` raises aborts the whole
selector (the exception lands in the per-selector `except`). -/
def elemLoop {α : Type} (test : String → Option α) : List (Except String String) → Option α
  | [] => none
  | Except.error _ :: _ => none
  | Except.ok t :: rest =>
    match test t with
    | some v => some v
    | none => elemLoop test rest

/-- One selector attempt: a raising `select_all` is swallowed
(`except ... continue`), otherwise the element loop runs. -/
def trySelector {α : Type} (test : String → Option α) (q : Except String (List (Except String String))) : Option α :=
  match q with
  | Except.error _ => none
  | Except.ok elems => elemLoop test elems

/-- The per-field selector loop (lines 66-81 for price, 84-97 for SKU):
selectors in priority order, first selector whose attempt accepts a value
breaks the search. -/
def findField {α : Type} (page : Page) (test : String → Option α) : List String → Option α
  | [] => none
  | s :: rest =>
    match trySelector test (page.query s) with
    | some v => some v
    | none => findField page test rest

/-- Embeds `PriceScraper.scrape_price_and_sku`: returns the assembled result and
the number of `browser.stop()` calls made by the `finally` block (`browser`
is `None` only when `uc.start` itself raised).  `materialName` is a
parameter of the Python function and is unused by its body. -/
def scrape_price_and_sku (url _materialName : String) (env : ScrapeEnv) : ScrapeResult × Nat :=
  match env with
  | ScrapeEnv.launchFail msg => (failResult url msg, 0)
  | ScrapeEnv.navFail msg _ => (failResult url msg, 1)
  | ScrapeEnv.settleFail msg _ => (failResult url msg, 1)
  | ScrapeEnv.run page _ =>
    let price := findField page priceTest price_selectors
    let sku := findField page skuTest sku_selectors
    ({ success := true, price := price, sku := sku, source := url,
       confidence := if pyTruthy price then mkRat 8 10 else mkRat 3 10, error := none }, 1)

/-- Did the environment get past `uc.start`? -/
def launched : ScrapeEnv → Bool
  | ScrapeEnv.launchFail _ => false
  | _ => true

/-- Replace the teardown outcome of an environment, leaving the pipeline
behaviour unchanged. -/
def setStop : ScrapeEnv → Option String → ScrapeEnv
  | ScrapeEnv.launchFail m, _ => ScrapeEnv.launchFail m
  | ScrapeEnv.navFail m _, se => ScrapeEnv.navFail m se
  | ScrapeEnv.settleFail m _, se => ScrapeEnv.settleFail m se
  | ScrapeEnv.run p _, se => ScrapeEnv.run p se


/-- The digit run `15000` (the only numeric token of C8's inputs). -/
def D15000 : List Char := ['1', '5', '0', '0', '0']

/-- A page on which every selector query raises: every extraction-phase
operation fails with an exception, all swallowed per selector. -/
def badPage : Page :=
  ⟨fun _ => Except.error "boom"⟩

/-- A page with a price element under the first price selector and a SKU
element under the first SKU selector. -/
def demoPage : Page :=
  ⟨fun s =>
    if s = "[data-testid=\"price\"]" then Except.ok [Except.ok "$19.99"]
    else if s = "[data-testid=\"sku\"]" then Except.ok [Except.ok "SKU12345"]
    else Except.ok []⟩

/-- A page for exercising the selector search: selector "a" raises,
selector "b" holds a rejected element followed by an accepted one. -/
def twoSelPage : Page :=
  ⟨fun s =>
    if s = "a" then Except.error "bad selector"
    else if s = "b" then Except.ok [Except.ok "12", Except.ok "SKU12345"]
    else Except.ok []⟩

/-! ## Lemmas: the noise-removal scan -/

theorem matchTok_length {t l r : List Char} (h : matchTok t l = some r) :
    l.length = t.length + r.length := by
  induction t generalizing l with
  | nil =>
    simp only [matchTok, Option.some.injEq] at h
    subst h; simp
  | cons t0 ts ih =>
    cases l with
    | nil => simp [matchTok] at h
    | cons c cs =>
      simp only [matchTok] at h
      cases hc : (c.toLower == t0) <;> simp [hc] at h
      have := ih h
      simp [this]
      omega

theorem matchTok_suffix {t l r : List Char} (h : matchTok t l = some r) : r <:+ l := by
  induction t generalizing l with
  | nil =>
    simp only [matchTok, Option.some.injEq] at h
    subst h; exact List.suffix_refl _
  | cons t0 ts ih =>
    cases l with
    | nil => simp [matchTok] at h
    | cons c cs =>
      simp only [matchTok] at h
      cases hc : (c.toLower == t0) <;> simp [hc] at h
      exact (ih h).trans (List.suffix_cons c cs)

theorem findTok_ex {ts : List (List Char)} {l r : List Char} (h : findTok ts l = some r) :
    ∃ t ∈ ts, matchTok t l = some r := by
  induction ts with
  | nil => simp [findTok] at h
  | cons t ts ih =>
    simp only [findTok] at h
    cases hm : matchTok t l with
    | some r0 =>
      rw [hm] at h
      simp only [Option.some.injEq] at h
      exact ⟨t, by simp, h ▸ hm⟩
    | none =>
      rw [hm] at h
      obtain ⟨t', ht', hm'⟩ := ih h
      exact ⟨t', by simp [ht'], hm'⟩

theorem matchNoiseAt_lt {l r : List Char} (h : matchNoiseAt l = some r) :
    r.length < l.length := by
  obtain ⟨t, ht, hm⟩ := findTok_ex h
  have hlen := matchTok_length hm
  have hne : t.length ≠ 0 := by
    have hall : ∀ t ∈ noiseTokens, t.length ≠ 0 := by decide
    exact hall t ht
  omega

theorem matchNoiseAt_suffix {l r : List Char} (h : matchNoiseAt l = some r) : r <:+ l := by
  obtain ⟨_, _, hm⟩ := findTok_ex h
  exact matchTok_suffix hm

theorem removeNoiseF_nil (f : Nat) : removeNoiseF f [] = [] := by
  cases f <;> simp [removeNoiseF]

theorem removeNoiseF_congr_aux :
    ∀ (n f g : Nat) (l : List Char), l.length ≤ n → l.length ≤ f → l.length ≤ g →
      removeNoiseF f l = removeNoiseF g l := by
  intro n
  induction n with
  | zero =>
    intro f g l hn _ _
    have : l = [] := by
      cases l with
      | nil => rfl
      | cons c cs => simp at hn
    subst this
    simp [removeNoiseF_nil]
  | succ n ih =>
    intro f g l hn hf hg
    cases l with
    | nil => simp [removeNoiseF_nil]
    | cons c cs =>
      cases f with
      | zero => simp at hf
      | succ f' =>
        cases g with
        | zero => simp at hg
        | succ g' =>
          simp only [removeNoiseF]
          cases hm : matchNoiseAt (c :: cs) with
          | some rest =>
            have hlt := matchNoiseAt_lt hm
            simp only [List.length_cons] at hn hf hg hlt
            exact ih f' g' rest (by omega) (by omega) (by omega)
          | none =>
            simp only [List.length_cons] at hn hf hg
            rw [ih f' g' cs (by omega) (by omega) (by omega)]

theorem removeNoiseF_congr {f g : Nat} {l : List Char} (hf : l.length ≤ f) (hg : l.length ≤ g) :
    removeNoiseF f l = removeNoiseF g l :=
  removeNoiseF_congr_aux l.length f g l (le_refl _) hf hg

theorem removeNoise_eqF {f : Nat} {l : List Char} (hf : l.length ≤ f) :
    removeNoise l = removeNoiseF f l :=
  removeNoiseF_congr (le_refl _) hf

theorem removeNoiseF_mem {f : Nat} :
    ∀ {l : List Char} {c : Char}, c ∈ removeNoiseF f l → c ∈ l := by
  induction f with
  | zero => intro l c h; simpa [removeNoiseF] using h
  | succ f ih =>
    intro l c h
    cases l with
    | nil => simp [removeNoiseF] at h
    | cons c0 cs =>
      simp only [removeNoiseF] at h
      cases hm : matchNoiseAt (c0 :: cs) with
      | some rest =>
        rw [hm] at h
        exact (matchNoiseAt_suffix hm).subset (ih h)
      | none =>
        rw [hm] at h
        simp only [List.mem_cons] at h
        rcases h with h | h
        · simp [h]
        · simp [ih h]

theorem noiseTokens_eq :
    noiseTokens =
      [['w', 'a', 's'], ['o', 'r', 'i', 'g'],
       ['o', 'r', 'i', 'g', 'i', 'n', 'a', 'l', 'l', 'y'], ['s', 'a', 'v', 'e'],
       ['y', 'o', 'u', ' ', 's', 'a', 'v', 'e'], ['m', 's', 'r', 'p']] := by
  rfl

/-- No noise token matches at a position whose character is (lowercased)
none of the tokens' initial letters. -/
theorem matchNoiseAt_cons_none {c : Char} (r : List Char)
    (hw : (c.toLower == 'w') = false) (ho : (c.toLower == 'o') = false)
    (hs : (c.toLower == 's') = false) (hy : (c.toLower == 'y') = false)
    (hm : (c.toLower == 'm') = false) :
    matchNoiseAt (c :: r) = none := by
  simp [matchNoiseAt, noiseTokens_eq, findTok, matchTok, hw, ho, hs, hy, hm]

/-- A token none of whose characters is `'1'` matches across an appended
`'1' :: zs` exactly as it matches on the left part alone: the literal
token can neither start at nor cross the digit boundary. -/
theorem matchTok_append_one (zs : List Char) :
    ∀ t : List Char, t.all (fun c => c != '1') = true →
      ∀ x : List Char, matchTok t (x ++ '1' :: zs) = (matchTok t x).map (· ++ '1' :: zs) := by
  intro t
  induction t with
  | nil => intro _ x; simp [matchTok]
  | cons t0 ts ih =>
    intro ht x
    have hh : (t0 != '1') = true ∧ ts.all (fun c => c != '1') = true := by
      simpa [List.all_cons] using ht
    have ht0 : ('1' == t0) = false := by
      have hne : t0 ≠ '1' := by simpa using hh.1
      exact beq_eq_false_iff_ne.mpr (Ne.symm hne)
    cases x with
    | nil =>
      have h1 : '1'.toLower = '1' := by decide
      simp [matchTok, h1, ht0]
    | cons c cs =>
      simp only [List.cons_append, matchTok]
      cases hc : (c.toLower == t0)
      · simp [hc]
      · simp only [hc, if_true]
        exact ih hh.2 cs

theorem findTok_append_one (zs : List Char) :
    ∀ ts : List (List Char), (∀ t ∈ ts, t.all (fun c => c != '1') = true) →
      ∀ x : List Char, findTok ts (x ++ '1' :: zs) = (findTok ts x).map (· ++ '1' :: zs) := by
  intro ts
  induction ts with
  | nil => intro _ x; simp [findTok]
  | cons t ts ih =>
    intro hts x
    have ht : t.all (fun c => c != '1') = true := hts t (by simp)
    simp only [findTok, matchTok_append_one zs t ht x]
    cases hm : matchTok t x with
    | some r => simp
    | none =>
      simp only [Option.map_none']
      exact ih (fun t' ht' => hts t' (by simp [ht'])) x

/-- No noise token contains the digit `'1'`, so noise matching commutes
with the `'1'`-headed split of the input. -/
theorem matchNoiseAt_append_one (x zs : List Char) :
    matchNoiseAt (x ++ '1' :: zs) = (matchNoiseAt x).map (· ++ '1' :: zs) := by
  have h : ∀ t ∈ noiseTokens, t.all (fun c => c != '1') = true := by decide
  exact findTok_append_one zs noiseTokens h x

/-- The scan never crosses a `'1'`-headed boundary: it factors into the
scan of the left part followed by the scan of the `'1'`-headed right
part. -/
theorem removeNoiseF_append_one :
    ∀ (n : Nat) (x zs : List Char) (f : Nat), x.length ≤ n →
      x.length + (1 + zs.length) ≤ f →
      removeNoiseF f (x ++ '1' :: zs) = removeNoiseF f x ++ removeNoise ('1' :: zs) := by
  intro n
  induction n with
  | zero =>
    intro x zs f hn hf
    have hx : x = [] := by
      cases x with
      | nil => rfl
      | cons c cs => simp at hn
    subst hx
    simp only [List.nil_append, removeNoiseF_nil]
    exact (removeNoise_eqF (by simp; omega)).symm
  | succ n ih =>
    intro x zs f hn hf
    cases x with
    | nil =>
      simp only [List.nil_append, removeNoiseF_nil]
      exact (removeNoise_eqF (by simp at hf ⊢; omega)).symm
    | cons c cs =>
      cases f with
      | zero => simp at hf
      | succ f' =>
        have hstep := matchNoiseAt_append_one (c :: cs) zs
        simp only [List.cons_append] at hstep ⊢
        simp only [removeNoiseF, hstep]
        cases hm : matchNoiseAt (c :: cs) with
        | some rest =>
          simp only [Option.map_some']
          have hlt := matchNoiseAt_lt hm
          simp only [List.length_cons] at hn hf hlt
          exact ih rest zs f' (by omega) (by omega)
        | none =>
          simp only [Option.map_none', List.length_cons] at *
          rw [ih cs zs f' (by omega) (by omega)]
          simp

theorem removeNoiseF_d15000 (f : Nat) (b : List Char) :
    removeNoiseF (f + 5) (D15000 ++ b) = D15000 ++ removeNoiseF f b := by
  have h1 : ∀ r : List Char, matchNoiseAt ('1' :: r) = none := fun r =>
    matchNoiseAt_cons_none r (by decide) (by decide) (by decide) (by decide) (by decide)
  have h5 : ∀ r : List Char, matchNoiseAt ('5' :: r) = none := fun r =>
    matchNoiseAt_cons_none r (by decide) (by decide) (by decide) (by decide) (by decide)
  have h0 : ∀ r : List Char, matchNoiseAt ('0' :: r) = none := fun r =>
    matchNoiseAt_cons_none r (by decide) (by decide) (by decide) (by decide) (by decide)
  show removeNoiseF (f + 5) ('1' :: '5' :: '0' :: '0' :: '0' :: b) = _
  rw [show f + 5 = (f + 4) + 1 by omega]
  rw [removeNoiseF, h1]
  rw [show f + 4 = (f + 3) + 1 by omega]
  rw [removeNoiseF, h5]
  rw [show f + 3 = (f + 2) + 1 by omega]
  rw [removeNoiseF, h0]
  rw [show f + 2 = (f + 1) + 1 by omega]
  rw [removeNoiseF, h0]
  rw [removeNoiseF, h0]
  rfl

/-- Noise removal factors over a text whose digits are exactly the
contiguous run `15000`: tokens are all-letter literals, so no removal can
touch or cross the run. -/
theorem removeNoise_split (a b : List Char) :
    removeNoise (a ++ D15000 ++ b) = removeNoise a ++ D15000 ++ removeNoise b := by
  have hassoc : a ++ D15000 ++ b = a ++ ('1' :: ('5' :: '0' :: '0' :: '0' :: b)) := by
    simp [D15000]
  have hlen : (a ++ D15000 ++ b).length = a.length + (1 + ('5' :: '0' :: '0' :: '0' :: b).length) := by
    simp [D15000]; omega
  show removeNoiseF (a ++ D15000 ++ b).length (a ++ D15000 ++ b) = _
  rw [hassoc]
  rw [removeNoiseF_append_one a.length a ('5' :: '0' :: '0' :: '0' :: b) _ (le_refl _)
    (by rw [hassoc] at hlen; simp at hlen ⊢; omega)]
  have hleft : removeNoiseF (a ++ D15000 ++ b).length a = removeNoise a := by
    refine (removeNoiseF_congr ?_ (le_refl _))
    simp [D15000]
  have hright : removeNoise ('1' :: '5' :: '0' :: '0' :: '0' :: b) = D15000 ++ removeNoise b := by
    show removeNoiseF (b.length + 5) (D15000 ++ b) = D15000 ++ removeNoiseF b.length b
    exact removeNoiseF_d15000 b.length b
  rw [hassoc] at hleft
  rw [hleft, hright]
  simp [D15000]

/-! ## Lemmas: price patterns on a text whose only digit run is `15000` -/

theorem coreAt_d15000 (B : List Char) : coreAt (D15000 ++ B) = some (D15000, B) := by
  rfl

theorem coreAt_not_digit {c : Char} (hc : c.isDigit = false) (l : List Char) :
    coreAt (c :: l) = none := by
  simp [coreAt, takeUpTo, hc]

theorem matchP3At_not_digit {c : Char} (hc : c.isDigit = false) (l : List Char) :
    matchP3At (c :: l) = none := by
  simp [matchP3At, coreAt_not_digit hc]

theorem matchP1At_cons (c : Char) (l : List Char) :
    matchP1At (c :: l) = if c = '$' then (coreAt l).map (·.1) else none := by
  rfl

theorem firstMatchWith_cons (mAt : List Char → Option (List Char)) (c : Char) (cs : List Char) :
    firstMatchWith mAt (c :: cs) =
      match mAt (c :: cs) with
      | some g => some g
      | none => firstMatchWith mAt cs := by
  rfl

theorem fmP3_split (B : List Char) :
    ∀ A : List Char, A.all (fun c => !c.isDigit) = true →
      firstMatchWith matchP3At (A ++ D15000 ++ B) = some D15000 := by
  intro A
  induction A with
  | nil =>
    intro _
    show firstMatchWith matchP3At ('1' :: ('5' :: '0' :: '0' :: '0' :: B)) = some D15000
    rw [firstMatchWith_cons]
    have hm3 : matchP3At ('1' :: ('5' :: '0' :: '0' :: '0' :: B)) = some D15000 := by
      show (coreAt (D15000 ++ B)).map (·.1) = some D15000
      rw [coreAt_d15000]
      rfl
    rw [hm3]
  | cons c A' ih =>
    intro hA
    simp only [List.all_cons, Bool.and_eq_true, Bool.not_eq_true'] at hA
    show firstMatchWith matchP3At (c :: (A' ++ D15000 ++ B)) = some D15000
    rw [firstMatchWith_cons, matchP3At_not_digit hA.1]
    exact ih (by simp [List.all_eq_true] at hA ⊢; exact hA.2)

theorem coreAt_nil : coreAt [] = none := by
  rfl

theorem fmP1_nodigit : ∀ B : List Char, B.all (fun c => !c.isDigit) = true →
    firstMatchWith matchP1At B = none := by
  intro B
  induction B with
  | nil => intro _; rfl
  | cons c B' ih =>
    intro hB
    simp only [List.all_cons, Bool.and_eq_true, Bool.not_eq_true'] at hB
    rw [firstMatchWith_cons, matchP1At_cons]
    have hrest : firstMatchWith matchP1At B' = none := by
      refine ih ?_
      simp [List.all_eq_true] at hB ⊢
      exact hB.2
    by_cases hc : c = '$'
    · rw [if_pos hc]
      cases B' with
      | nil => simpa [coreAt_nil] using hrest
      | cons d B'' =>
        have hd : d.isDigit = false := by
          simp [List.all_eq_true] at hB
          simpa using hB.2.1
        rw [coreAt_not_digit hd]
        simpa using hrest
    · rw [if_neg hc]
      exact hrest

theorem fmP1_split (B : List Char) (hB : B.all (fun c => !c.isDigit) = true) :
    ∀ A : List Char, A.all (fun c => !c.isDigit) = true →
      ∀ g : List Char, firstMatchWith matchP1At (A ++ D15000 ++ B) = some g → g = D15000 := by
  intro A
  induction A with
  | nil =>
    intro _ g hg
    have hrun : firstMatchWith matchP1At (D15000 ++ B) = firstMatchWith matchP1At B := by
      show firstMatchWith matchP1At ('1' :: '5' :: '0' :: '0' :: '0' :: B) = _
      rw [firstMatchWith_cons, matchP1At_cons, if_neg (by decide)]
      rw [firstMatchWith_cons, matchP1At_cons, if_neg (by decide)]
      rw [firstMatchWith_cons, matchP1At_cons, if_neg (by decide)]
      rw [firstMatchWith_cons, matchP1At_cons, if_neg (by decide)]
      rw [firstMatchWith_cons, matchP1At_cons, if_neg (by decide)]
    simp only [List.nil_append] at hg
    rw [hrun, fmP1_nodigit B hB] at hg
    exact absurd hg (by simp)
  | cons c A' ih =>
    intro hA g hg
    simp only [List.all_cons, Bool.and_eq_true, Bool.not_eq_true'] at hA
    have hA' : A'.all (fun c => !c.isDigit) = true := by
      simp [List.all_eq_true] at hA ⊢
      exact hA.2
    have hg' : firstMatchWith matchP1At (c :: (A' ++ D15000 ++ B)) = some g := hg
    rw [firstMatchWith_cons, matchP1At_cons] at hg'
    by_cases hc : c = '$'
    · rw [if_pos hc] at hg'
      cases hA2 : A' with
      | nil =>
        subst hA2
        simp only [List.nil_append] at hg'
        rw [show (D15000 ++ B : List Char) = '1' :: '5' :: '0' :: '0' :: '0' :: B from rfl] at hg'
        rw [show coreAt ('1' :: '5' :: '0' :: '0' :: '0' :: B) = some (D15000, B) from coreAt_d15000 B] at hg'
        simp only [Option.map_some'] at hg'
        simpa using hg'.symm
      | cons d A'' =>
        subst hA2
        have hd : d.isDigit = false := by
          simp [List.all_eq_true] at hA'
          simpa using hA'.1
        rw [show (d :: A'') ++ D15000 ++ B = d :: (A'' ++ D15000 ++ B) by simp] at hg'
        rw [coreAt_not_digit hd] at hg'
        simp only [Option.map_none'] at hg'
        refine ih hA' g ?_
        simpa using hg'
    · rw [if_neg hc] at hg'
      exact ih hA' g hg'

theorem takeExact_nodigit {l : List Char} (hl : l.all (fun c => !c.isDigit) = true)
    (k : Nat) : takeExact Char.isDigit (k + 1) l = none := by
  cases l with
  | nil => rfl
  | cons c cs =>
    simp only [List.all_cons, Bool.and_eq_true, Bool.not_eq_true'] at hl
    simp [takeExact, hl.1]

theorem commaSplits_nodigit {l : List Char} (hl : l.all (fun c => !c.isDigit) = true) :
    commaSplits l = [([], l)] := by
  rw [commaSplits.eq_def]
  split
  · rename_i a b c rest
    simp only [List.all_cons, Bool.and_eq_true, Bool.not_eq_true'] at hl
    simp [hl.2.1]
  · rfl

theorem dotSplits_of_ne {c : Char} (hc : c ≠ '.') (r : List Char) :
    dotSplits (c :: r) = [([], c :: r)] := by
  simp [dotSplits, hc]

theorem dotSplits_nil : dotSplits [] = [([], [])] := by
  rfl

theorem matchP2At_not_digit {c : Char} (hc : c.isDigit = false) (l : List Char) :
    matchP2At (c :: l) = none := by
  simp [matchP2At, p2Candidates, takeExact, hc]

theorem fmP2_nodigit : ∀ B : List Char, B.all (fun c => !c.isDigit) = true →
    firstMatchWith matchP2At B = none := by
  intro B
  induction B with
  | nil => intro _; rfl
  | cons c B' ih =>
    intro hB
    simp only [List.all_cons, Bool.and_eq_true, Bool.not_eq_true'] at hB
    rw [firstMatchWith_cons, matchP2At_not_digit hB.1]
    refine ih ?_
    simp [List.all_eq_true] at hB ⊢
    exact hB.2

theorem usdAfter_zero (r : List Char) : usdAfter ('0' :: r) = false := by rfl

theorem usdAfter_five (r : List Char) : usdAfter ('5' :: r) = false := by rfl

theorem usdAfter_dot (r : List Char) : usdAfter ('.' :: r) = false := by rfl

theorem commaSplits_zero (r : List Char) : commaSplits ('0' :: r) = [([], '0' :: r)] := by rfl

theorem commaSplits_five (r : List Char) : commaSplits ('5' :: r) = [([], '5' :: r)] := by rfl

theorem commaSplits_dot (r : List Char) : commaSplits ('.' :: r) = [([], '.' :: r)] := by rfl

theorem dotSplits_zero (r : List Char) : dotSplits ('0' :: r) = [([], '0' :: r)] := by rfl

theorem dotSplits_five (r : List Char) : dotSplits ('5' :: r) = [([], '5' :: r)] := by rfl

theorem takeExact_succ_cons (p : Char → Bool) (n : Nat) (c : Char) (cs : List Char) :
    takeExact p (n + 1) (c :: cs) =
      if p c then (takeExact p n cs).map (fun tr => (c :: tr.1, tr.2)) else none := by
  rfl

theorem takeExact_zero (p : Char → Bool) (l : List Char) : takeExact p 0 l = some ([], l) := by
  rfl

theorem matchP2At_d15000 (B : List Char) :
    matchP2At (D15000 ++ B) = if usdAfter B then some D15000 else none := by
  have hd1 : Char.isDigit '1' = true := by rfl
  have hd5 : Char.isDigit '5' = true := by rfl
  have hd0 : Char.isDigit '0' = true := by rfl
  show matchP2At ('1' :: '5' :: '0' :: '0' :: '0' :: B) = _
  cases h : usdAfter B <;>
    simp [matchP2At, p2Candidates, takeExact_succ_cons, takeExact_zero, hd1, hd5, hd0,
      commaSplits_zero, commaSplits_five, dotSplits_zero, dotSplits_five, List.find?,
      h, usdAfter_zero, usdAfter_five, D15000]

theorem dotSplits_dot (r : List Char) : dotSplits ('.' :: r) = [(['.'], r), ([], '.' :: r)] := by
  rfl

theorem p2run1 {B : List Char} (hB : B.all (fun c => !c.isDigit) = true)
    (husd : usdAfter B = false) : matchP2At ('5' :: '0' :: '0' :: '0' :: B) = none := by
  have hd5 : Char.isDigit '5' = true := by rfl
  have hd0 : Char.isDigit '0' = true := by rfl
  have ht1 : takeExact Char.isDigit 1 B = none := takeExact_nodigit hB 0
  simp [matchP2At, p2Candidates, takeExact_succ_cons, takeExact_zero, hd5, hd0, ht1,
    commaSplits_zero, dotSplits_zero, List.find?, husd, usdAfter_zero]

theorem p2run2_nodot {B : List Char} (hB : B.all (fun c => !c.isDigit) = true)
    (husd : usdAfter B = false) (hds : dotSplits B = [([], B)]) :
    matchP2At ('0' :: '0' :: '0' :: B) = none := by
  have hd0 : Char.isDigit '0' = true := by rfl
  have ht1 : takeExact Char.isDigit 1 B = none := takeExact_nodigit hB 0
  have ht2 : takeExact Char.isDigit 2 B = none := takeExact_nodigit hB 1
  have hcs : commaSplits B = [([], B)] := commaSplits_nodigit hB
  simp [matchP2At, p2Candidates, takeExact_succ_cons, takeExact_zero, hd0, ht1, ht2,
    hcs, hds, commaSplits_zero, dotSplits_zero, List.find?, husd, usdAfter_zero]

theorem p2run2_dot {r : List Char} (hr : r.all (fun c => !c.isDigit) = true) :
    matchP2At ('0' :: '0' :: '0' :: '.' :: r) =
      if usdAfter r then some ['0', '0', '0', '.'] else none := by
  have hd0 : Char.isDigit '0' = true := by rfl
  have hddot : Char.isDigit '.' = false := by rfl
  have ht1 : takeExact Char.isDigit 1 r = none := takeExact_nodigit hr 0
  have ht2 : takeExact Char.isDigit 2 r = none := takeExact_nodigit hr 1
  cases husdr : usdAfter r <;>
    simp [matchP2At, p2Candidates, takeExact_succ_cons, takeExact_zero, hd0, hddot, ht1, ht2,
      commaSplits_zero, commaSplits_dot, dotSplits_zero, dotSplits_dot, List.find?,
      husdr, usdAfter_zero, usdAfter_dot]

theorem p2run3_nodot {B : List Char} (hB : B.all (fun c => !c.isDigit) = true)
    (husd : usdAfter B = false) (hds : dotSplits B = [([], B)]) :
    matchP2At ('0' :: '0' :: B) = none := by
  have hd0 : Char.isDigit '0' = true := by rfl
  have ht1 : takeExact Char.isDigit 1 B = none := takeExact_nodigit hB 0
  have ht2 : takeExact Char.isDigit 2 B = none := takeExact_nodigit hB 1
  have ht3 : takeExact Char.isDigit 3 B = none := takeExact_nodigit hB 2
  have hcs : commaSplits B = [([], B)] := commaSplits_nodigit hB
  simp [matchP2At, p2Candidates, takeExact_succ_cons, takeExact_zero, hd0, ht1, ht2, ht3,
    hcs, hds, commaSplits_zero, dotSplits_zero, List.find?, husd, usdAfter_zero]

theorem p2run3_dot {r : List Char} (hr : r.all (fun c => !c.isDigit) = true)
    (husdr : usdAfter r = false) : matchP2At ('0' :: '0' :: '.' :: r) = none := by
  have hd0 : Char.isDigit '0' = true := by rfl
  have hddot : Char.isDigit '.' = false := by rfl
  have ht1 : takeExact Char.isDigit 1 r = none := takeExact_nodigit hr 0
  have ht2 : takeExact Char.isDigit 2 r = none := takeExact_nodigit hr 1
  simp [matchP2At, p2Candidates, takeExact_succ_cons, takeExact_zero, hd0, hddot, ht1, ht2,
    commaSplits_zero, commaSplits_dot, dotSplits_zero, dotSplits_dot, List.find?,
    husdr, usdAfter_zero, usdAfter_dot]

theorem p2run4_nodot {B : List Char} (hB : B.all (fun c => !c.isDigit) = true)
    (husd : usdAfter B = false) (hds : dotSplits B = [([], B)]) :
    matchP2At ('0' :: B) = none := by
  have hd0 : Char.isDigit '0' = true := by rfl
  have ht1 : takeExact Char.isDigit 1 B = none := takeExact_nodigit hB 0
  have ht2 : takeExact Char.isDigit 2 B = none := takeExact_nodigit hB 1
  have hcs : commaSplits B = [([], B)] := commaSplits_nodigit hB
  simp [matchP2At, p2Candidates, takeExact_succ_cons, takeExact_zero, hd0, ht1, ht2,
    hcs, hds, List.find?, husd, usdAfter_zero]

theorem p2run4_dot {r : List Char} (hr : r.all (fun c => !c.isDigit) = true)
    (husdr : usdAfter r = false) : matchP2At ('0' :: '.' :: r) = none := by
  have hd0 : Char.isDigit '0' = true := by rfl
  have hddot : Char.isDigit '.' = false := by rfl
  have ht1 : takeExact Char.isDigit 1 r = none := takeExact_nodigit hr 0
  have ht2 : takeExact Char.isDigit 2 r = none := takeExact_nodigit hr 1
  simp [matchP2At, p2Candidates, takeExact_succ_cons, takeExact_zero, hd0, hddot, ht1, ht2,
    commaSplits_dot, dotSplits_dot, List.find?, husdr, usdAfter_dot]

/-- Over a normalized text whose only digit run is `15000`, the leftmost
match of pattern 2 (if any) is either the full run (when `\s*USD` follows)
or the backtracked group `000.` (when the run is followed by a dot and then
`\s*USD`); no other group is reachable. -/
theorem fmP2_split (B : List Char) (hB : B.all (fun c => !c.isDigit) = true) :
    ∀ A : List Char, A.all (fun c => !c.isDigit) = true →
      ∀ g : List Char, firstMatchWith matchP2At (A ++ D15000 ++ B) = some g →
        g = D15000 ∨ g = ['0', '0', '0', '.'] := by
  intro A
  induction A with
  | nil =>
    intro _ g hg
    simp only [List.nil_append] at hg
    rw [show (D15000 ++ B : List Char) = '1' :: '5' :: '0' :: '0' :: '0' :: B from rfl] at hg
    rw [firstMatchWith_cons,
      show matchP2At ('1' :: '5' :: '0' :: '0' :: '0' :: B) = matchP2At (D15000 ++ B) from rfl,
      matchP2At_d15000 B] at hg
    cases husd : usdAfter B with
    | true =>
      rw [husd, if_pos rfl] at hg
      left
      simpa using hg.symm
    | false =>
      rw [husd, if_neg (by simp)] at hg
      rw [firstMatchWith_cons, p2run1 hB husd] at hg
      rcases hdot : B with _ | ⟨b0, r⟩
      · subst hdot
        rw [firstMatchWith_cons, p2run2_nodot hB husd dotSplits_nil] at hg
        rw [firstMatchWith_cons, p2run3_nodot hB husd dotSplits_nil] at hg
        rw [firstMatchWith_cons, p2run4_nodot hB husd dotSplits_nil] at hg
        simp [firstMatchWith] at hg
      · subst hdot
        by_cases hb0 : b0 = '.'
        · subst hb0
          have hr : r.all (fun c => !c.isDigit) = true := by
            simp [List.all_eq_true] at hB ⊢
            exact hB
          cases husdr : usdAfter r with
          | true =>
            rw [firstMatchWith_cons, p2run2_dot hr, husdr, if_pos rfl] at hg
            right
            simpa using hg.symm
          | false =>
            rw [firstMatchWith_cons, p2run2_dot hr, husdr, if_neg (by simp)] at hg
            rw [firstMatchWith_cons, p2run3_dot hr husdr] at hg
            rw [firstMatchWith_cons, p2run4_dot hr husdr] at hg
            rw [fmP2_nodigit _ hB] at hg
            exact absurd hg (by simp)
        · have hds : dotSplits (b0 :: r) = [([], b0 :: r)] := dotSplits_of_ne hb0 r
          rw [firstMatchWith_cons, p2run2_nodot hB husd hds] at hg
          rw [firstMatchWith_cons, p2run3_nodot hB husd hds] at hg
          rw [firstMatchWith_cons, p2run4_nodot hB husd hds] at hg
          rw [fmP2_nodigit _ hB] at hg
          exact absurd hg (by simp)
  | cons c A' ih =>
    intro hA g hg
    simp only [List.all_cons, Bool.and_eq_true, Bool.not_eq_true'] at hA
    have hA' : A'.all (fun c => !c.isDigit) = true := by
      simp [List.all_eq_true] at hA ⊢
      exact hA.2
    rw [show (c :: A') ++ D15000 ++ B = c :: (A' ++ D15000 ++ B) by simp,
      firstMatchWith_cons, matchP2At_not_digit hA.1] at hg
    exact ih hA' g hg

theorem tryPatterns_nil (t : List Char) : tryPatterns [] t = none := by
  rfl

theorem tryPatterns_step_none {fm : List Char → Option (List Char)}
    {rest : List (List Char → Option (List Char))} {t : List Char} (h : fm t = none) :
    tryPatterns (fm :: rest) t = tryPatterns rest t := by
  simp [tryPatterns, h]

theorem tryPatterns_step_reject {fm : List Char → Option (List Char)}
    {rest : List (List Char → Option (List Char))} {t g : List Char} {p : ℚ}
    (h : fm t = some g) (hp : pyFloat (g.filter (fun c => c != ',')) = some p)
    (hrej : ¬(mkRat 1 100 ≤ p ∧ p ≤ 10000)) :
    tryPatterns (fm :: rest) t = tryPatterns rest t := by
  simp [tryPatterns, h, hp, hrej]

/-- C8: for every input text whose only numeric token is `15000` (that is,
whose characters are a digit-free part, the contiguous digit run `15000`,
and a digit-free part), `extract_price_from_text` returns `none`: every
pattern's first match parses to a value outside `[0.01, 10000]` (the bare
and dollar patterns yield `15000 > 10000`; the USD pattern can only yield
`15000` or the backtracked group `000.` with value `0 < 0.01`). -/
theorem extract_absent_only_token_15000 (text : String) (a b : List Char)
    (hdata : text.data = a ++ D15000 ++ b)
    (ha : a.all (fun c => !c.isDigit) = true)
    (hb : b.all (fun c => !c.isDigit) = true) :
    extract_price_from_text text = none := by
  have hne : ¬(text = "") := by
    intro h
    have h0 : text.data = [] := by simp [h]
    rw [h0] at hdata
    have hlen := congrArg List.length hdata
    simp [D15000] at hlen
    omega
  have hA : (removeNoise a).all (fun c => !c.isDigit) = true := by
    simp only [List.all_eq_true] at ha ⊢
    intro c hc
    exact ha c (removeNoiseF_mem hc)
  have hBn : (removeNoise b).all (fun c => !c.isDigit) = true := by
    simp only [List.all_eq_true] at hb ⊢
    intro c hc
    exact hb c (removeNoiseF_mem hc)
  have hrejD : ¬(mkRat 1 100 ≤ (mkRat 15000 1 : ℚ) ∧ (mkRat 15000 1 : ℚ) ≤ 10000) := by
    decide
  have hrej0 : ¬(mkRat 1 100 ≤ (mkRat 0 1 : ℚ) ∧ (mkRat 0 1 : ℚ) ≤ 10000) := by
    decide
  have hpfD : pyFloat (D15000.filter (fun c => c != ',')) = some (mkRat 15000 1) := by rfl
  have hpf0 : pyFloat ((['0', '0', '0', '.'] : List Char).filter (fun c => c != ',')) =
      some (mkRat 0 1) := by rfl
  rw [extract_price_from_text, if_neg hne, hdata, removeNoise_split]
  show tryPatterns
    [firstMatchWith matchP1At, firstMatchWith matchP2At, firstMatchWith matchP3At]
    (removeNoise a ++ D15000 ++ removeNoise b) = none
  have h1 : tryPatterns
      [firstMatchWith matchP1At, firstMatchWith matchP2At, firstMatchWith matchP3At]
      (removeNoise a ++ D15000 ++ removeNoise b) =
      tryPatterns [firstMatchWith matchP2At, firstMatchWith matchP3At]
        (removeNoise a ++ D15000 ++ removeNoise b) := by
    cases hm1 : firstMatchWith matchP1At (removeNoise a ++ D15000 ++ removeNoise b) with
    | none => exact tryPatterns_step_none hm1
    | some g =>
      have hgD := fmP1_split (removeNoise b) hBn (removeNoise a) hA g hm1
      subst hgD
      exact tryPatterns_step_reject hm1 hpfD hrejD
  have h2 : tryPatterns [firstMatchWith matchP2At, firstMatchWith matchP3At]
      (removeNoise a ++ D15000 ++ removeNoise b) =
      tryPatterns [firstMatchWith matchP3At]
        (removeNoise a ++ D15000 ++ removeNoise b) := by
    cases hm2 : firstMatchWith matchP2At (removeNoise a ++ D15000 ++ removeNoise b) with
    | none => exact tryPatterns_step_none hm2
    | some g =>
      rcases fmP2_split (removeNoise b) hBn (removeNoise a) hA g hm2 with hg | hg <;> subst hg
      · exact tryPatterns_step_reject hm2 hpfD hrejD
      · exact tryPatterns_step_reject hm2 hpf0 hrej0
  have h3 : tryPatterns [firstMatchWith matchP3At]
      (removeNoise a ++ D15000 ++ removeNoise b) = none := by
    rw [tryPatterns_step_reject (fmP3_split (removeNoise b) (removeNoise a) hA) hpfD hrejD]
    exact tryPatterns_nil _
  rw [h1, h2, h3]

/-! ## Lemmas: the pattern loop and the claims about extraction -/

theorem tryPatterns_eq_firstSome (t : List Char) :
    ∀ ps : List (List Char → Option (List Char)),
      tryPatterns ps t = firstSomeOf (ps.map (fun fm => (fm t).bind validateGroup)) := by
  intro ps
  induction ps with
  | nil => rfl
  | cons fm rest ih =>
    simp only [List.map_cons, firstSomeOf]
    cases hm : fm t with
    | none =>
      rw [tryPatterns_step_none hm]
      simpa using ih
    | some g =>
      cases hv : pyFloat (g.filter (fun c => c != ',')) with
      | none =>
        simp only [Option.some_bind, validateGroup, hv]
        rw [show tryPatterns (fm :: rest) t = tryPatterns rest t by simp [tryPatterns, hm, hv]]
        exact ih
      | some p =>
        by_cases hr : mkRat 1 100 ≤ p ∧ p ≤ 10000
        · simp only [Option.some_bind, validateGroup, hv, if_pos hr]
          simp [tryPatterns, hm, hv, hr]
        · simp only [Option.some_bind, validateGroup, hv, if_neg hr]
          rw [show tryPatterns (fm :: rest) t = tryPatterns rest t by simp [tryPatterns, hm, hv, hr]]
          exact ih

/-- C2 (amended): the pattern loop considers, per pattern in order, only
that pattern's first match; a first match that is unparsable or out of
range makes the loop fall through to the NEXT pattern (never to later
matches of the same pattern), rather than yielding overall absence. -/
theorem extract_price_pattern_fallthrough (text : String) :
    extract_price_from_text text = extractAmendedSpec text := by
  unfold extract_price_from_text extractAmendedSpec
  by_cases h : text = ""
  · simp [h]
  · simp only [h, if_neg, if_false]
    exact tryPatterns_eq_firstSome (removeNoise text.data) pricePatterns

/-- C2 counterexample: on `"50 $15000"` the dollar pattern (first in
order) has first match `15000`, which is out of range; the claim as
stated predicts overall absence, but the code falls through and returns
`50` from the bare-number pattern. -/
theorem extract_price_first_pattern_counterexample :
    firstMatchWith matchP1At (removeNoise "50 $15000".data) = some D15000 ∧
    extractClaimedSpec "50 $15000" = none ∧
    extract_price_from_text "50 $15000" = some (mkRat 50 1) := by
  exact ⟨by rfl, by rfl, by rfl⟩

/-- C6 counterexample: normalizing the lone noise token `"originally"`
yields `"inally"`, not the empty string: the alternation tries `"orig"`
before `"originally"` and removes only that prefix. -/
theorem normalize_originally_counterexample :
    normalizeText "originally" = "inally" ∧ normalizeText "originally" ≠ "" := by
  exact ⟨by rfl, by decide⟩

/-- C6 (amended): the normalizer removes case-insensitive noise-token
occurrences scanning left to right with the regex alternation's priority
(`orig` before `originally`); each of `was`, `orig`, `save`, `you save`,
`msrp` alone normalizes to the empty string, while `originally` alone
normalizes to `"inally"` because only its prefix `orig` is removed. -/
theorem normalize_noise_tokens :
    normalizeText "was" = "" ∧ normalizeText "orig" = "" ∧
    normalizeText "originally" = "inally" ∧ normalizeText "save" = "" ∧
    normalizeText "you save" = "" ∧ normalizeText "msrp" = "" ∧
    normalizeText "WAS" = "" ∧ normalizeText "MsRp" = "" := by
  exact ⟨by rfl, by rfl, by rfl, by rfl, by rfl, by rfl, by rfl, by rfl⟩

/-- C7 counterexample: normalization is not idempotent: removing the inner
`was` from `"wwasas"` glues a new `was` together, so one pass yields
`"was"` while a second pass yields `""`. -/
theorem normalize_not_idempotent_counterexample :
    normalizeText (normalizeText "wwasas") ≠ normalizeText "wwasas" := by
  decide

theorem removeNoiseF_of_hasNoise_false :
    ∀ (l : List Char) (f : Nat), hasNoise l = false → removeNoiseF f l = l := by
  intro l
  induction l with
  | nil => intro f _; exact removeNoiseF_nil f
  | cons c cs ih =>
    intro f h
    simp only [hasNoise, Bool.or_eq_false_iff] at h
    have hm : matchNoiseAt (c :: cs) = none := by
      cases hmm : matchNoiseAt (c :: cs) with
      | none => rfl
      | some r => rw [hmm] at h; simp at h
    cases f with
    | zero => rfl
    | succ f' =>
      simp only [removeNoiseF, hm]
      rw [ih f' h.2]

/-- C7 (amended): normalization IS idempotent on every text whose
normalized form contains no noise-token occurrence; it is not idempotent
in general, because a removal can splice a new occurrence together. -/
theorem normalize_idempotent_when_clean (s : String)
    (h : hasNoise (normalizeText s).data = false) :
    normalizeText (normalizeText s) = normalizeText s := by
  have hd : (normalizeText s).data = removeNoise s.data := rfl
  rw [hd] at h
  show (⟨removeNoise (removeNoise s.data)⟩ : String) = ⟨removeNoise s.data⟩
  exact congrArg String.mk (removeNoiseF_of_hasNoise_false (removeNoise s.data) _ h)

/-- Witness for the amended C7 at a concrete input containing a noise
token. -/
theorem normalize_idempotent_when_clean_witness :
    hasNoise (normalizeText "was $50").data = false ∧
    normalizeText (normalizeText "was $50") = normalizeText "was $50" :=
  ⟨by rfl, normalize_idempotent_when_clean "was $50" (by rfl)⟩

/-- Witness for C8 at the concrete input `"x15000y"`. -/
theorem extract_absent_only_token_15000_witness :
    extract_price_from_text "x15000y" = none :=
  extract_absent_only_token_15000 "x15000y" ['x'] ['y'] (by rfl) (by decide) (by decide)

theorem tryPatterns_range :
    ∀ (ps : List (List Char → Option (List Char))) (t : List Char) (p : ℚ),
      tryPatterns ps t = some p → mkRat 1 100 ≤ p ∧ p ≤ 10000 := by
  intro ps
  induction ps with
  | nil => intro t p h; simp [tryPatterns] at h
  | cons fm rest ih =>
    intro t p h
    simp only [tryPatterns] at h
    cases hm : fm t with
    | none =>
      simp only [hm] at h
      exact ih t p h
    | some g =>
      simp only [hm] at h
      cases hv : pyFloat (g.filter (fun c => c != ',')) with
      | none =>
        simp only [hv] at h
        exact ih t p h
      | some q =>
        simp only [hv] at h
        by_cases hr : mkRat 1 100 ≤ q ∧ q ≤ 10000
        · rw [if_pos hr] at h
          simp only [Option.some.injEq] at h
          exact h ▸ hr
        · rw [if_neg hr] at h
          exact ih t p h

theorem extract_price_range {text : String} {p : ℚ}
    (h : extract_price_from_text text = some p) : mkRat 1 100 ≤ p ∧ p ≤ 10000 := by
  unfold extract_price_from_text at h
  by_cases he : text = ""
  · simp [he] at h
  · rw [if_neg he] at h
    exact tryPatterns_range pricePatterns (removeNoise text.data) p h

theorem priceTest_some {t : String} {p : ℚ} (h : priceTest t = some p) :
    extract_price_from_text t = some p ∧ p ≠ 0 := by
  unfold priceTest at h
  by_cases he : t = ""
  · simp [he] at h
  · rw [if_neg he] at h
    cases hx : extract_price_from_text t with
    | none => simp [hx] at h
    | some q =>
      simp only [hx] at h
      by_cases hq : (q == 0) = true
      · rw [if_pos hq] at h; simp at h
      · rw [if_neg hq] at h
        simp only [Option.some.injEq] at h
        subst h
        exact ⟨rfl, by simpa using hq⟩

theorem skuTest_some {t s : String} (h : skuTest t = some s) :
    s = pyStrip t ∧ looks_like_sku t = true := by
  unfold skuTest at h
  by_cases he : t = ""
  · simp [he] at h
  · rw [if_neg he] at h
    by_cases hk : looks_like_sku t = true
    · rw [if_pos hk] at h
      simp only [Option.some.injEq] at h
      exact ⟨h.symm, hk⟩
    · rw [if_neg hk] at h
      simp at h

theorem elemLoop_ex {α : Type} {test : String → Option α}
    {elems : List (Except String String)} {v : α} (h : elemLoop test elems = some v) :
    ∃ t : String, test t = some v := by
  induction elems with
  | nil => simp [elemLoop] at h
  | cons e rest ih =>
    cases e with
    | error msg => simp [elemLoop] at h
    | ok t =>
      simp only [elemLoop] at h
      cases ht : test t with
      | none => rw [ht] at h; exact ih h
      | some w =>
        rw [ht] at h
        simp only [Option.some.injEq] at h
        exact ⟨t, h ▸ ht⟩

theorem findField_ex {α : Type} {page : Page} {test : String → Option α}
    {sels : List String} {v : α} (h : findField page test sels = some v) :
    ∃ t : String, test t = some v := by
  induction sels with
  | nil => simp [findField] at h
  | cons s rest ih =>
    simp only [findField] at h
    cases hq : trySelector test (page.query s) with
    | none => rw [hq] at h; exact ih h
    | some w =>
      rw [hq] at h
      simp only [Option.some.injEq] at h
      subst h
      unfold trySelector at hq
      cases hqq : page.query s with
      | error msg => rw [hqq] at hq; simp at hq
      | ok elems => rw [hqq] at hq; exact elemLoop_ex hq

/-! ## Lemmas: Python `strip()` -/

theorem dropWhile_head_false {p : Char → Bool} :
    ∀ {l t : List Char} {c : Char}, l.dropWhile p = c :: t → p c = false := by
  intro l
  induction l with
  | nil => intro t c h; simp [List.dropWhile] at h
  | cons a l ih =>
    intro t c h
    rw [List.dropWhile_cons] at h
    by_cases ha : p a = true
    · rw [if_pos ha] at h
      exact ih h
    · rw [if_neg ha] at h
      cases h
      simpa using ha

theorem dropWhile_of_head_false {p : Char → Bool} {c : Char} (t : List Char)
    (h : p c = false) : (c :: t).dropWhile p = c :: t := by
  rw [List.dropWhile_cons, if_neg (by simp [h])]

theorem dropWhile_suffix_list (p : Char → Bool) (l : List Char) : l.dropWhile p <:+ l := by
  induction l with
  | nil => simp
  | cons a l ih =>
    rw [List.dropWhile_cons]
    by_cases ha : p a = true
    · rw [if_pos ha]
      exact ih.trans (List.suffix_cons a l)
    · rw [if_neg ha]

/-- A list whose head and last character both fail the whitespace test is
fixed by `stripCore`. -/
theorem stripCore_fix {l : List Char}
    (hhead : ∀ c t, l = c :: t → Char.isWhitespace c = false)
    (hlast : ∀ c t, l.reverse = c :: t → Char.isWhitespace c = false) :
    stripCore l = l := by
  unfold stripCore
  cases hl : l with
  | nil => rfl
  | cons c t =>
    rw [dropWhile_of_head_false t (hhead c t hl)]
    cases hr : (c :: t).reverse with
    | nil => simp at hr
    | cons d u =>
      rw [dropWhile_of_head_false u (hlast d u (by rw [hl, hr]))]
      rw [← hr, List.reverse_reverse]

theorem stripCore_head_last (l : List Char) :
    (∀ c t, stripCore l = c :: t → Char.isWhitespace c = false) ∧
    (∀ c t, (stripCore l).reverse = c :: t → Char.isWhitespace c = false) := by
  constructor
  · intro c t hc
    -- stripCore l is a reversed suffix of (dropWhile ws l).reverse, i.e. a
    -- prefix of dropWhile ws l, so its head is the head of dropWhile ws l.
    have hsuf : (l.dropWhile Char.isWhitespace).reverse.dropWhile Char.isWhitespace
        <:+ (l.dropWhile Char.isWhitespace).reverse :=
      dropWhile_suffix_list _ _
    obtain ⟨w, hw⟩ := hsuf
    have hy : l.dropWhile Char.isWhitespace = (stripCore l) ++ w.reverse := by
      have := congrArg List.reverse hw
      simpa [stripCore, List.reverse_append] using this.symm
    rw [hc] at hy
    exact dropWhile_head_false hy
  · intro c t hc
    have : (stripCore l).reverse =
        (l.dropWhile Char.isWhitespace).reverse.dropWhile Char.isWhitespace := by
      simp [stripCore]
    rw [this] at hc
    exact dropWhile_head_false hc

theorem stripCore_idem (l : List Char) : stripCore (stripCore l) = stripCore l :=
  stripCore_fix (stripCore_head_last l).1 (stripCore_head_last l).2

theorem pyStrip_idem (s : String) : pyStrip (pyStrip s) = pyStrip s := by
  show (⟨stripCore (pyStrip s).data⟩ : String) = ⟨stripCore s.data⟩
  exact congrArg String.mk (stripCore_idem s.data)

theorem looks_like_sku_true {t : String} (h : looks_like_sku t = true) :
    3 ≤ (pyStrip t).length ∧ skuShape (pyStrip t).data = true := by
  unfold looks_like_sku at h
  by_cases h3 : (pyStrip t).length < 3
  · simp [h3] at h
  · by_cases he : t = ""
    · simp [he] at h
    · simp [he, h3] at h
      exact ⟨by omega, h⟩

theorem looks_like_sku_strip {t : String} (h : looks_like_sku t = true) :
    looks_like_sku (pyStrip t) = true := by
  obtain ⟨h3, hs⟩ := looks_like_sku_true h
  have hidem : pyStrip (pyStrip t) = pyStrip t := pyStrip_idem t
  have hne : ¬(pyStrip t = "") := by
    intro hq
    rw [hq] at h3
    simp [String.length] at h3
  unfold looks_like_sku
  rw [hidem]
  have h3' : ¬((pyStrip t).length < 3) := by omega
  simp [hne, h3', hs]

theorem findField_price_ne_zero {page : Page} {sels : List String} {p : ℚ}
    (h : findField page priceTest sels = some p) : p ≠ 0 := by
  obtain ⟨t, ht⟩ := findField_ex h
  exact (priceTest_some ht).2

/-! ## Claim theorems about the orchestrator -/

/-- C1: every result of `scrape_price_and_sku` satisfies the
success/confidence invariant: a failure result carries no price, no SKU
and confidence `0`; a success result carries confidence `0.8` exactly when
a price is present and `0.3` when it is absent, regardless of the SKU. -/
theorem scrape_result_confidence_invariant (url m : String) (env : ScrapeEnv) :
    ((scrape_price_and_sku url m env).1.success = false →
      (scrape_price_and_sku url m env).1.price = none ∧
      (scrape_price_and_sku url m env).1.sku = none ∧
      (scrape_price_and_sku url m env).1.confidence = 0) ∧
    ((scrape_price_and_sku url m env).1.success = true →
      ((scrape_price_and_sku url m env).1.price.isSome = true →
        (scrape_price_and_sku url m env).1.confidence = mkRat 8 10) ∧
      ((scrape_price_and_sku url m env).1.price = none →
        (scrape_price_and_sku url m env).1.confidence = mkRat 3 10)) := by
  cases env with
  | launchFail msg => exact ⟨fun _ => ⟨rfl, rfl, rfl⟩, fun h => by simp [scrape_price_and_sku, failResult] at h⟩
  | navFail msg se => exact ⟨fun _ => ⟨rfl, rfl, rfl⟩, fun h => by simp [scrape_price_and_sku, failResult] at h⟩
  | settleFail msg se => exact ⟨fun _ => ⟨rfl, rfl, rfl⟩, fun h => by simp [scrape_price_and_sku, failResult] at h⟩
  | run page se =>
    refine ⟨fun h => by simp [scrape_price_and_sku] at h, fun _ => ⟨?_, ?_⟩⟩
    · intro hp
      show (if pyTruthy (findField page priceTest price_selectors) then mkRat 8 10 else mkRat 3 10) = mkRat 8 10
      cases hf : findField page priceTest price_selectors with
      | none =>
        rw [show (scrape_price_and_sku url m (ScrapeEnv.run page se)).1.price =
          findField page priceTest price_selectors from rfl, hf] at hp
        simp at hp
      | some p =>
        have hne := findField_price_ne_zero hf
        simp [pyTruthy, hne]
    · intro hp
      show (if pyTruthy (findField page priceTest price_selectors) then mkRat 8 10 else mkRat 3 10) = mkRat 3 10
      rw [show (scrape_price_and_sku url m (ScrapeEnv.run page se)).1.price =
        findField page priceTest price_selectors from rfl] at hp
      rw [hp]
      simp [pyTruthy]

/-- Witness for C1: a failing environment and a succeeding environment
with a found price. -/
theorem scrape_result_confidence_invariant_witness :
    ((scrape_price_and_sku "u" "" (ScrapeEnv.launchFail "e")).1.price = none ∧
      (scrape_price_and_sku "u" "" (ScrapeEnv.launchFail "e")).1.sku = none ∧
      (scrape_price_and_sku "u" "" (ScrapeEnv.launchFail "e")).1.confidence = 0) ∧
    (scrape_price_and_sku "u" "" (ScrapeEnv.run demoPage none)).1.confidence = mkRat 8 10 :=
  ⟨(scrape_result_confidence_invariant "u" "" (ScrapeEnv.launchFail "e")).1 rfl,
    ((scrape_result_confidence_invariant "u" "" (ScrapeEnv.run demoPage none)).2 rfl).1 (by rfl)⟩

/-- C3 (amended): every exception that reaches the orchestrator's outer
handler — those raised in Launching, Navigating or Settling — produces
`{success: false, error: the exception's message, price: none, sku: none,
confidence: 0}`; exceptions raised during Extracting are confined to
individual selector queries, are swallowed there, and the scrape returns a
success result instead. -/
theorem scrape_outer_failure_shape (url m msg : String) (se : Option String) :
    ((scrape_price_and_sku url m (ScrapeEnv.launchFail msg)).1.success = false ∧
      (scrape_price_and_sku url m (ScrapeEnv.launchFail msg)).1.error = some msg ∧
      (scrape_price_and_sku url m (ScrapeEnv.launchFail msg)).1.price = none ∧
      (scrape_price_and_sku url m (ScrapeEnv.launchFail msg)).1.sku = none ∧
      (scrape_price_and_sku url m (ScrapeEnv.launchFail msg)).1.confidence = 0) ∧
    (scrape_price_and_sku url m (ScrapeEnv.navFail msg se)).1 = failResult url msg ∧
    (scrape_price_and_sku url m (ScrapeEnv.settleFail msg se)).1 = failResult url msg ∧
    ∀ page : Page, (scrape_price_and_sku url m (ScrapeEnv.run page se)).1.success = true :=
  ⟨⟨rfl, rfl, rfl, rfl, rfl⟩, rfl, rfl, fun _ => rfl⟩

/-- C3 counterexample: an environment whose every selector query raises
during the Extracting phase nevertheless yields a SUCCESS result (the
per-selector handler swallows the exceptions), not the claimed failure
shape. -/
theorem scrape_extracting_exception_counterexample :
    badPage.query ".price" = Except.error "boom" ∧
    (scrape_price_and_sku "u" "" (ScrapeEnv.run badPage none)).1.success = true ∧
    (scrape_price_and_sku "u" "" (ScrapeEnv.run badPage none)).1.error = none :=
  ⟨rfl, rfl, rfl⟩

/-- C4: on every execution path the `finally` block stops the browser
exactly once when the launch succeeded and never when it did not, and the
teardown outcome (`stopErr`) never changes the returned result. -/
theorem scrape_session_released_once (url m : String) (env : ScrapeEnv) :
    (launched env = true → (scrape_price_and_sku url m env).2 = 1) ∧
    (launched env = false → (scrape_price_and_sku url m env).2 = 0) ∧
    ∀ se : Option String,
      (scrape_price_and_sku url m (setStop env se)).1 = (scrape_price_and_sku url m env).1 := by
  cases env with
  | launchFail msg =>
    exact ⟨fun h => by simp [launched] at h, fun _ => rfl, fun se => rfl⟩
  | navFail msg se0 =>
    exact ⟨fun _ => rfl, fun h => by simp [launched] at h, fun se => rfl⟩
  | settleFail msg se0 =>
    exact ⟨fun _ => rfl, fun h => by simp [launched] at h, fun se => rfl⟩
  | run page se0 =>
    exact ⟨fun _ => rfl, fun h => by simp [launched] at h, fun se => rfl⟩

/-- Witness for C4: a navigation-failure environment whose teardown also
fails; the stop happens once and the failing teardown does not change the
result. -/
theorem scrape_session_released_once_witness :
    launched (ScrapeEnv.navFail "nav error" (some "stop failed")) = true ∧
    (scrape_price_and_sku "u" "" (ScrapeEnv.navFail "nav error" (some "stop failed"))).2 = 1 ∧
    (scrape_price_and_sku "u" ""
        (setStop (ScrapeEnv.navFail "nav error" (some "stop failed")) none)).1 =
      (scrape_price_and_sku "u" "" (ScrapeEnv.navFail "nav error" (some "stop failed"))).1 :=
  ⟨rfl, (scrape_session_released_once "u" "" (ScrapeEnv.navFail "nav error" (some "stop failed"))).1 rfl,
    (scrape_session_released_once "u" "" (ScrapeEnv.navFail "nav error" (some "stop failed"))).2.2 none⟩

/-- C9: the scrape result does not depend on `materialName`: the Python
function takes it as a parameter and never uses it. -/
theorem scrape_ignores_material_name (url m1 m2 : String) (env : ScrapeEnv) :
    scrape_price_and_sku url m1 env = scrape_price_and_sku url m2 env := by
  cases env <;> rfl

/-- C5: the per-field selector search returns the value accepted by the
earliest selector whose element loop accepts (elements tested in document
order, first acceptance wins), never a later selector's value; selectors
whose query raises, or whose elements yield no acceptance, are skipped and
the search continues. -/
theorem findField_earliest_accept {α : Type} (page : Page) (test : String → Option α)
    (post : List String) (s : String) (epre epost : List (Except String String))
    (t : String) (v : α)
    (hq : page.query s = Except.ok (epre ++ Except.ok t :: epost))
    (hepre : ∀ e ∈ epre, ∃ t' : String, e = Except.ok t' ∧ test t' = none)
    (ht : test t = some v) :
    ∀ pre : List String,
      (∀ s' ∈ pre, (∃ msg, page.query s' = Except.error msg) ∨
        ∃ elems, page.query s' = Except.ok elems ∧ elemLoop test elems = none) →
      findField page test (pre ++ s :: post) = some v := by
  have helem : ∀ ep : List (Except String String),
      (∀ e ∈ ep, ∃ t' : String, e = Except.ok t' ∧ test t' = none) →
      elemLoop test (ep ++ Except.ok t :: epost) = some v := by
    intro ep
    induction ep with
    | nil => intro _; simp [elemLoop, ht]
    | cons e ep' ihe =>
      intro hep
      obtain ⟨t', rfl, ht'⟩ := hep e (by simp)
      simp only [List.cons_append, elemLoop, ht']
      exact ihe (fun e he => hep e (by simp [he]))
  intro pre
  induction pre with
  | nil =>
    intro _
    simp only [List.nil_append, findField]
    rw [show trySelector test (page.query s) = some v by
      rw [hq]
      exact helem epre hepre]
  | cons s0 pre' ih =>
    intro hpre
    have hskip : trySelector test (page.query s0) = none := by
      rcases hpre s0 (by simp) with ⟨msg, herr⟩ | ⟨elems, hok, hnone⟩
      · rw [herr]; rfl
      · rw [hok]; exact hnone
    simp only [List.cons_append, findField, hskip]
    exact ih (fun s' hs' => hpre s' (by simp [hs']))

/-- Witness for C5: a page where the first selector raises and the second
selector's first element is rejected; the accepted value comes from the
second element of the second selector. -/
theorem findField_earliest_accept_witness :
    findField twoSelPage skuTest ["a", "b"] = some "SKU12345" :=
  findField_earliest_accept twoSelPage skuTest [] "b" [Except.ok "12"] []
    "SKU12345" "SKU12345" rfl
    (by
      intro e he
      simp only [List.mem_singleton] at he
      exact ⟨"12", he, by rfl⟩)
    (by rfl)
    ["a"]
    (by
      intro s' hs'
      simp only [List.mem_singleton] at hs'
      exact Or.inl ⟨"bad selector", by subst hs'; rfl⟩)

/-- C10: in every successful scrape result, a present price lies in the
inclusive range [0.01, 10000], and a present SKU is a trimmed string of
length at least 3 accepted by the SKU shape classifier. -/
theorem scrape_success_value_invariants (url m : String) (env : ScrapeEnv)
    (hs : (scrape_price_and_sku url m env).1.success = true) :
    (∀ p : ℚ, (scrape_price_and_sku url m env).1.price = some p →
      mkRat 1 100 ≤ p ∧ p ≤ 10000) ∧
    (∀ s : String, (scrape_price_and_sku url m env).1.sku = some s →
      pyStrip s = s ∧ 3 ≤ s.length ∧ looks_like_sku s = true) := by
  cases env with
  | launchFail msg => simp [scrape_price_and_sku, failResult] at hs
  | navFail msg se => simp [scrape_price_and_sku, failResult] at hs
  | settleFail msg se => simp [scrape_price_and_sku, failResult] at hs
  | run page se =>
    constructor
    · intro p hp
      have hf : findField page priceTest price_selectors = some p := hp
      obtain ⟨t, ht⟩ := findField_ex hf
      exact extract_price_range (priceTest_some ht).1
    · intro s hsku
      have hf : findField page skuTest sku_selectors = some s := hsku
      obtain ⟨t, ht⟩ := findField_ex hf
      obtain ⟨hst, hsk⟩ := skuTest_some ht
      subst hst
      exact ⟨pyStrip_idem t, (looks_like_sku_true hsk).1, looks_like_sku_strip hsk⟩

/-- Witness for C10 at a page yielding both a price and a SKU. -/
theorem scrape_success_value_invariants_witness :
    (mkRat 1 100 ≤ mkRat 1999 100 ∧ (mkRat 1999 100 : ℚ) ≤ 10000) ∧
    (pyStrip "SKU12345" = "SKU12345" ∧ 3 ≤ String.length "SKU12345" ∧
      looks_like_sku "SKU12345" = true) :=
  ⟨(scrape_success_value_invariants "u" "" (ScrapeEnv.run demoPage none) rfl).1
      (mkRat 1999 100) (by rfl),
    (scrape_success_value_invariants "u" "" (ScrapeEnv.run demoPage none) rfl).2
      "SKU12345" (by rfl)⟩

/-- Sanity evaluations matching the testable examples of spec section 8
that concern the pure extraction components. -/
theorem spec_extract_examples :
    extract_price_from_text "$19.99" = some (mkRat 1999 100) ∧
    extract_price_from_text "was $50 now $19.99" = some (mkRat 50 1) ∧
    extract_price_from_text "120 USD" = some (mkRat 120 1) ∧
    normalizeText "wwasas" = "was" :=
  ⟨rfl, rfl, rfl, rfl⟩

/-- Sanity evaluations for the SKU classifier examples of spec section 8. -/
theorem spec_sku_examples :
    looks_like_sku "123456" = true ∧ looks_like_sku "AB" = false ∧
    looks_like_sku "123-ABC" = true ∧ looks_like_sku "SKU" = true :=
  ⟨rfl, rfl, rfl, rfl⟩
